import Mathlib

/-!
Verification development for the kgx RDF transformer
(`kgx/rdf_transformer.py`): a shallow embedding of the OBAN-style
reification loader (`ObanRdfTransformer.load_edges`), the recursive
category resolver (`get_node_attr`), the CURIE contraction
(`ObanRdfTransformer.curie`), the format/`provided_by` handling of
`RdfTransformer.parse`, and the serializer (`ObanRdfTransformer.save`).

Modelling conventions:
- RDF terms are IRIs or literals over `String`; an `rdflib.Graph` is a
  finite list of triples (iteration order fixes one of the orders the
  Python `set`-backed store may present; no claim below depends on it).
- Python `defaultdict(set)` / `defaultdict(list)` attribute dictionaries
  become association lists preserving insertion order; set-valued entries
  deduplicate on insertion.
- The unguarded recursion of `get_node_attr` is embedded with an explicit
  fuel parameter: `Option.none` means the recursion exceeded any given
  depth bound (in Python: unbounded recursion / stack overflow).
- The `import pudb; pu.db` statements scattered in `load_edges` and
  `get_node_attr` are interactive breakpoints with no effect on the data
  flow; they are embedded as no-ops.
- `uuid.uuid4()` (a fresh random identifier per call) is modelled as an
  injective supply of identifiers indexed by the position of the edge
  being serialized; only freshness/uniqueness is relied upon.
-/

namespace Kgx

/-- An RDF term: an IRI (`rdflib.URIRef`) or a literal (`rdflib.Literal`). -/
inductive Term where
  | iri (s : String)
  | lit (s : String)
deriving DecidableEq, Repr

/-- `str(o)` on an rdflib term: both IRIs and literals print their text. -/
def Term.str : Term → String
  | Term.iri s => s
  | Term.lit s => s

/-- One RDF triple; subjects and predicates are IRIs in every use below. -/
structure Triple where
  s : String
  p : String
  o : Term
deriving DecidableEq, Repr

/-- A value stored in a node/edge attribute dictionary: a plain string,
a list of strings, or Python `None`. -/
inductive AttrVal where
  | vStr (s : String)
  | vList (l : List String)
  | vNone
deriving DecidableEq, Repr

/-- Association list over string keys, preserving insertion order
(Python 3.7+ dict iteration order); `d.get(k)` — first entry wins. -/
def lookupA {α : Type} : List (String × α) → String → Option α
  | [], _ => Option.none
  | kv :: m, k => if kv.1 == k then Option.some kv.2 else lookupA m k

/-- Membership test for a key (Python `k in d`). -/
def hasKeyA {α : Type} (m : List (String × α)) (k : String) : Bool :=
  (lookupA m k).isSome

/-- `d[k] = v`: overwrite the entry in place when present, append when
absent (keys are unique in every dictionary the code builds). -/
def setA {α : Type} : List (String × α) → String → α → List (String × α)
  | [], k, v => [(k, v)]
  | kv :: m, k, v => if kv.1 == k then (k, v) :: m else kv :: setA m k v

/-- `d.pop(k, None)`: remove the key when present. -/
def removeA {α : Type} (m : List (String × α)) (k : String) :
    List (String × α) :=
  m.filter (fun kv => kv.1 != k)

/-! ## Fixed vocabulary (`mapping` table at module top level) -/

def rdf_type_iri : String := "http://www.w3.org/1999/02/22-rdf-syntax-ns#type"

def oban_association : String := "http://purl.org/oban/association"

def oban_has_subject : String := "http://purl.org/oban/association_has_subject"

def oban_has_object : String := "http://purl.org/oban/association_has_object"

def oban_has_predicate : String := "http://purl.org/oban/association_has_predicate"

def exact_match_iri : String := "http://www.w3.org/2004/02/skos/core#exactMatch"

def xrefs_iri : String := "http://www.geneontology.org/formats/oboInOwl#hasDbXref"

def category_iri : String := "http://www.w3.org/2000/01/rdf-schema#subClassOf"

/-- The `mapping` dict: property name → predicate IRI, in source order. -/
def mapping : List (String × String) :=
  [("subject", oban_has_subject),
   ("object", oban_has_object),
   ("predicate", oban_has_predicate),
   ("type", rdf_type_iri),
   ("comment", "http://www.w3.org/2000/01/rdf-schema#comment"),
   ("name", "http://www.w3.org/2000/01/rdf-schema#label"),
   ("description", "http://purl.org/dc/elements/1.1/description"),
   ("has_evidence", "http://purl.obolibrary.org/obo/RO_0002558"),
   ("exact_match", exact_match_iri),
   ("xrefs", xrefs_iri),
   ("category", category_iri),
   ("synonyms", "http://www.geneontology.org/formats/oboInOwl#hasExactSynonym")]

/-- `mapping[k]` as a partial lookup. -/
def mapping_lookup (k : String) : Option String :=
  (mapping.find? (fun kv => kv.1 == k)).map (fun kv => kv.2)

/-- `reverse_mapping`: predicate IRI → property name. -/
def reverse_mapping (p : String) : Option String :=
  (mapping.find? (fun kv => kv.2 == p)).map (fun kv => kv.1)

/-- The `iri_to_categories_map` table, read one entry per line.  (In the
source the literal is missing the commas between entries — as written it
is not even accepted by the host language — so the evident one-pair-per-
line reading is embedded.) -/
def iri_to_categories_map : List (String × String) :=
  [("http://purl.obolibrary.org/obo/CL_0000000", "cell"),
   ("http://purl.obolibrary.org/obo/UBERON_0001062", "anatomical entity"),
   ("http://purl.obolibrary.org/obo/ZFA_0009000", "cell"),
   ("http://purl.obolibrary.org/obo/UBERON_0004529", "anatomical projection"),
   ("http://purl.obolibrary.org/obo/UBERON_0000468", "multi-cellular organism"),
   ("http://purl.obolibrary.org/obo/UBERON_0000955", "brain"),
   ("http://purl.obolibrary.org/obo/PATO_0000001", "quality"),
   ("http://purl.obolibrary.org/obo/GO_0005623", "cell"),
   ("http://purl.obolibrary.org/obo/WBbt_0007833", "organism"),
   ("http://purl.obolibrary.org/obo/WBbt_0004017", "cell"),
   ("http://purl.obolibrary.org/obo/MONDO_0000001", "disease"),
   ("http://purl.obolibrary.org/obo/PATO_0000003", "assay"),
   ("http://purl.obolibrary.org/obo/PATO_0000006", "process"),
   ("http://purl.obolibrary.org/obo/PATO_0000011", "age"),
   ("http://purl.obolibrary.org/obo/ZFA_0000008", "brain"),
   ("http://purl.obolibrary.org/obo/ZFA_0001637", "bony projection"),
   ("http://purl.obolibrary.org/obo/WBPhenotype_0000061", "extended life span"),
   ("http://purl.obolibrary.org/obo/WBPhenotype_0000039", "life span variant"),
   ("http://purl.obolibrary.org/obo/WBPhenotype_0001171", "shortened life span"),
   ("http://purl.obolibrary.org/obo/CHEBI_23367", "molecular entity"),
   ("http://purl.obolibrary.org/obo/CHEBI_23888", "drug"),
   ("http://purl.obolibrary.org/obo/CHEBI_51086", "chemical role"),
   ("http://purl.obolibrary.org/obo/UPHENO_0001001", "Phenotype"),
   ("http://purl.obolibrary.org/obo/GO_0008150", "biological_process"),
   ("http://purl.obolibrary.org/obo/GO_0005575", "cellular component"),
   ("http://purl.obolibrary.org/obo/SO_0000704", "gene"),
   ("http://purl.obolibrary.org/obo/SO_0000110", "sequence feature"),
   ("http://purl.obolibrary.org/obo/GENO_0000536", "genotype")]

/-- `iri_to_categories_map[c]` as a partial lookup. -/
def category_label (c : String) : Option String :=
  (iri_to_categories_map.find? (fun kv => kv.1 == c)).map (fun kv => kv.2)

/-- `ObanRdfTransformer.rprop_set`. -/
def rprop_set : List String :=
  ["subject", "predicate", "object", "provided_by", "id", rdf_type_iri]

/-! ## Category resolver (`ObanRdfTransformer.get_node_attr`) -/

/-- Attribute dictionary built by `get_node_attr`: Python
`defaultdict(set)`, embedded as an ordered association list whose values
deduplicate on insertion. -/
abbrev AttrSets : Type := List (String × List String)

/-- `attr[k].add(v)` on a `defaultdict(set)`. -/
def addAttrVal (m : AttrSets) (k v : String) : AttrSets :=
  match lookupA m k with
  | Option.none => m ++ [(k, [v])]
  | Option.some vs => if v ∈ vs then m else setA m k (vs ++ [v])

/-- `attr[key] |= sub_attr[key]` over all keys of `sub_attr`. -/
def mergeAttr (a sub : AttrSets) : AttrSets :=
  sub.foldl (fun acc kv => kv.2.foldl (fun acc2 v => addAttrVal acc2 kv.1 v) acc) a

/-- First loop of `get_node_attr`: scan the node's outgoing triples,
recording reverse-mapped predicates, and otherwise literal objects under
the raw predicate IRI. -/
def directAttrs (rg : List Triple) (node_iri : String) : AttrSets :=
  rg.foldl
    (fun a t =>
      if t.s == node_iri then
        match reverse_mapping t.p with
        | Option.some p2 => addAttrVal a p2 t.o.str
        | Option.none =>
          match t.o with
          | Term.lit s => addAttrVal a t.p s
          | Term.iri _ => a
      else a)
    []

/-- The recursion targets produced by the four `filters` of
`get_node_attr`, in source order: exact-match forward (objects),
exact-match backward (subjects), xrefs forward, xrefs backward. -/
def matchTargets (rg : List Triple) (node_iri : String) : List String :=
  ((rg.filter (fun t => t.s == node_iri && t.p == exact_match_iri)).map
     (fun t => t.o.str)) ++
  ((rg.filter (fun t => t.p == exact_match_iri && t.o == Term.iri node_iri)).map
     (fun t => t.s)) ++
  ((rg.filter (fun t => t.s == node_iri && t.p == xrefs_iri)).map
     (fun t => t.o.str)) ++
  ((rg.filter (fun t => t.p == xrefs_iri && t.o == Term.iri node_iri)).map
     (fun t => t.s))

/-- `ObanRdfTransformer.get_node_attr`, with an explicit recursion-depth
budget.  `Option.none` means the budget was exhausted: the Python
original, which has no cycle guard, recurses past any finite depth on
such inputs.  When a `category` attribute is found among the direct
triples, no recursion happens; otherwise each target of the four filters
is resolved recursively and its attributes are unioned in (the loop has
no early exit once a category is found). -/
def get_node_attr : Nat → List Triple → String → Option AttrSets
  | 0, _, _ => Option.none
  | Nat.succ fuel, rg, node_iri =>
    let attr := directAttrs rg node_iri
    if hasKeyA attr "category" then Option.some attr
    else
      (matchTargets rg node_iri).foldl
        (fun acc n =>
          acc.bind (fun a => (get_node_attr fuel rg n).map (fun sub => mergeAttr a sub)))
        (Option.some attr)

/-! ## CURIE contraction / expansion -/

/-- One configured prefix map: (prefix, namespace base IRI) pairs in
configured order.  The concrete content (`prefixcommons`'
`default_curie_maps`) is external data; the operations below are
parametric in it. -/
abbrev CMap : Type := List (String × String)

/-- `str.startswith` (character-level prefix test). -/
def strStarts (s pre : String) : Bool :=
  pre.data.isPrefixOf s.data

/-- `str.endswith` (character-level suffix test). -/
def strEnds (s sfx : String) : Bool :=
  sfx.data.isSuffixOf s.data

/-- Modelled from the spec: `prefixcommons.curie_util.contract_uri` — the
list of CURIEs obtained from every configured namespace whose base IRI
is a prefix of the given IRI, in configured order (§4.1: longest/first
matching namespace prefix across the configured maps). -/
def contract_uri (cmaps : CMap) (uri : String) : List String :=
  cmaps.filterMap
    (fun pb =>
      if strStarts uri pb.2 then
        Option.some (pb.1 ++ ":" ++ String.mk (uri.data.drop pb.2.length))
      else Option.none)

/-- `ObanRdfTransformer.curie`: first contraction when one exists, the
IRI itself otherwise. -/
def curie (cmaps : CMap) (uri : String) : String :=
  match contract_uri cmaps uri with
  | c :: _ => c
  | [] => uri

/-- Split a character list at its first colon. -/
def splitFirstColon : List Char → Option (List Char × List Char)
  | [] => Option.none
  | c :: cs =>
    if c = ':' then Option.some ([], cs)
    else (splitFirstColon cs).map (fun pr => (c :: pr.1, pr.2))

/-- Modelled from the spec: the prefix manager's `expand`
(`to_curie`'s inverse, §4.1) — expand a CURIE's prefix (the part before
the first colon) via the prefix tables; unresolvable input is returned
unchanged as an opaque IRI. -/
def expand_curie (cmaps : CMap) (s : String) : String :=
  match splitFirstColon s.data with
  | Option.some (p, r) =>
    match lookupA cmaps (String.mk p) with
    | Option.some base => base ++ String.mk r
    | Option.none => s
  | Option.none => s

/-! ## Property graph (`self.graph`)

Modelled from the spec: the base `Transformer`'s in-memory property
graph (§3, §6) — a node store keyed by id carrying attribute
dictionaries, plus a directed multi-edge list that is appended to
without deduplication (`add_node`, `add_edge`, `has_node`,
`node[id]` access). -/

/-- Node / edge attribute dictionary (heterogeneous values). -/
abbrev AttrDict : Type := List (String × AttrVal)

/-- One stored edge: subject node id, object node id, attributes. -/
structure PEdge where
  sub : String
  obj : String
  attr : AttrDict
deriving DecidableEq, Repr

/-- The property graph: ordered node store (id → attributes) and an
append-only multi-edge list. -/
structure PGraph where
  nodes : List (String × AttrDict)
  edges : List PEdge
deriving DecidableEq, Repr

/-- `graph.has_node(id)`. -/
def PGraph.has_node (g : PGraph) (id : String) : Bool :=
  hasKeyA g.nodes id

/-- `graph.add_node(id, **attr)` for a fresh id (the loader only calls
it after a failed `has_node` lookup). -/
def PGraph.add_node (g : PGraph) (id : String) (attr : AttrDict) : PGraph :=
  { g with nodes := g.nodes ++ [(id, attr)] }

/-- In-place mutation of `graph.node[id]`'s attribute dictionary
(node ids are unique keys of the store). -/
def PGraph.set_node (g : PGraph) (id : String) (attr : AttrDict) : PGraph :=
  { g with nodes := setA g.nodes id attr }

/-- `graph.add_edge(s, o, **attr)`: appended, never deduplicated. -/
def PGraph.add_edge (g : PGraph) (s o : String) (attr : AttrDict) : PGraph :=
  { g with edges := g.edges ++ [⟨s, o, attr⟩] }

/-! ## Reification loader (`ObanRdfTransformer.load_edges`) -/

/-- `edge_attr[p].append(str(o))` on the `defaultdict(list)`:
a fresh key starts a one-element list; a list value is appended to;
appending to a non-list value (`iri`, `id`, `provided_by`) is a Python
`TypeError`, embedded as `Option.none`. -/
def edgeAttrAppend (m : AttrDict) (k v : String) : Option AttrDict :=
  match lookupA m k with
  | Option.none => Option.some (m ++ [(k, AttrVal.vList [v])])
  | Option.some (AttrVal.vList l) => Option.some (setA m k (AttrVal.vList (l ++ [v])))
  | Option.some _ => Option.none

/-- `graph_metadata['provided_by']` as an attribute value (may be
Python `None`). -/
def providedByVal : Option String → AttrVal
  | Option.some s => AttrVal.vStr s
  | Option.none => AttrVal.vNone

/-- The `edge_attr` dictionary of one association: the `iri`, `id`,
`provided_by` entries followed by one append per outgoing triple of the
association, its predicate translated through `reverse_mapping` when
possible. -/
def buildEdgeAttr (cmaps : CMap) (rg : List Triple) (provided_by : Option String)
    (association : String) : Option AttrDict :=
  (rg.filter (fun t => t.s == association)).foldlM
    (fun m t => edgeAttrAppend m ((reverse_mapping t.p).getD t.p) t.o.str)
    [("iri", AttrVal.vStr association),
     ("id", AttrVal.vStr (curie cmaps association)),
     ("provided_by", providedByVal provided_by)]

/-- `edge_attr['subject']` / `edge_attr['object']`: the accumulated list
(a missing key reads as the `defaultdict`'s empty list). -/
def attrList (m : AttrDict) (k : String) : List String :=
  match lookupA m k with
  | Option.some (AttrVal.vList l) => l
  | _ => []

/-- Node-attribute finalization for a newly created node (source lines
284–301): list-ify the resolver's sets, set `iri` and `id`, then replace
raw category IRIs by their `iri_to_categories_map` labels, dropping the
whole `category` entry when no raw IRI is in the table. -/
def finalizeNodeAttr (raw : AttrSets) (iri node_id : String) : AttrDict :=
  let base : AttrDict := raw.map (fun kv => (kv.1, AttrVal.vList kv.2))
  let base := setA base "iri" (AttrVal.vStr iri)
  let base := setA base "id" (AttrVal.vStr node_id)
  match lookupA raw "category" with
  | Option.none => base
  | Option.some cats =>
    let categories := cats.filterMap category_label
    if categories != [] then setA base "category" (AttrVal.vList categories)
    else removeA base "category"

/-- The existing-node branch (source lines 304–309): add `iri` and `id`
to the stored attribute dictionary when missing, touch nothing else. -/
def touchExistingAttr (attr : AttrDict) (iri node_id : String) : AttrDict :=
  let attr := if hasKeyA attr "iri" then attr else attr ++ [("iri", AttrVal.vStr iri)]
  if hasKeyA attr "id" then attr else attr ++ [("id", AttrVal.vStr node_id)]

/-- Processing of one endpoint IRI inside `load_edges`' node loop:
create the node (running the category resolver) when its id is absent,
otherwise only complete the stored `iri`/`id` attributes. -/
def nodeStep (cmaps : CMap) (rg : List Triple) (fuel : Nat) (g : PGraph)
    (iri : String) : Option PGraph :=
  let node_id := curie cmaps iri
  if g.has_node node_id then
    match lookupA g.nodes node_id with
    | Option.some attr => Option.some (g.set_node node_id (touchExistingAttr attr iri node_id))
    | Option.none => Option.none
  else
    (get_node_attr fuel rg iri).map
      (fun raw => g.add_node node_id (finalizeNodeAttr raw iri node_id))

/-- The Cartesian projection of one association: one edge per
(subject, object) pair, all sharing the same attribute dictionary
(`id_map[iri]` is always `curie(iri)`). -/
def cartEdges (cmaps : CMap) (subjects objects : List String) (ea : AttrDict) :
    List PEdge :=
  (subjects.map (fun s => objects.map (fun o => (⟨curie cmaps s, curie cmaps o, ea⟩ : PEdge)))).flatten

/-- The node loop of one association: every distinct endpoint IRI in
turn (Python iterates `set(subjects + objects)`; the embedding fixes one
duplicate-free order). -/
def nodePhase (cmaps : CMap) (rg : List Triple) (fuel : Nat) (g : PGraph)
    (iris : List String) : Option PGraph :=
  iris.foldlM (fun h iri => nodeStep cmaps rg fuel h iri) g

/-- `load_edges`' body for one association: build `edge_attr`, process
every distinct endpoint IRI, then append the Cartesian product of
subject and object lists as edges. -/
def processAssociation (cmaps : CMap) (rg : List Triple) (provided_by : Option String)
    (fuel : Nat) (g : PGraph) (association : String) : Option PGraph :=
  (buildEdgeAttr cmaps rg provided_by association).bind
    (fun ea =>
      let subjects := attrList ea "subject"
      let objects := attrList ea "object"
      (nodePhase cmaps rg fuel g (subjects ++ objects).dedup).map
        (fun h => { h with edges := h.edges ++ cartEdges cmaps subjects objects ea }))

/-- `rdfgraph.subjects(RDF.type, OBAN.association)`. -/
def associationsOf (rg : List Triple) : List String :=
  (rg.filter (fun t => t.p == rdf_type_iri && t.o == Term.iri oban_association)).map
    (fun t => t.s)

/-- `ObanRdfTransformer.load_edges`. -/
def load_edges (cmaps : CMap) (rg : List Triple) (provided_by : Option String)
    (fuel : Nat) (g : PGraph) : Option PGraph :=
  (associationsOf rg).foldlM (fun h a => processAssociation cmaps rg provided_by fuel h a) g

/-- The edges one association contributes, independent of the graph
state the loader runs against. -/
def assocBatch (cmaps : CMap) (rg : List Triple) (provided_by : Option String)
    (association : String) : List PEdge :=
  match buildEdgeAttr cmaps rg provided_by association with
  | Option.some ea => cartEdges cmaps (attrList ea "subject") (attrList ea "object") ea
  | Option.none => []

/-- All edges one `load_edges` pass contributes. -/
def edgeBatch (cmaps : CMap) (rg : List Triple) (provided_by : Option String) :
    List PEdge :=
  (associationsOf rg).flatMap (fun a => assocBatch cmaps rg provided_by a)

/-- A node id that is present and already carries `iri` and `id`
attributes (the state every endpoint is in after one loader pass). -/
def nodeReady (g : PGraph) (id : String) : Prop :=
  ∃ a, lookupA g.nodes id = Option.some a ∧ hasKeyA a "iri" = true ∧ hasKeyA a "id" = true

/-- The endpoint IRIs (subject and object lists) of one association. -/
def endpointsOf (cmaps : CMap) (rg : List Triple) (provided_by : Option String)
    (a : String) : List String :=
  match buildEdgeAttr cmaps rg provided_by a with
  | Option.some ea => attrList ea "subject" ++ attrList ea "object"
  | Option.none => []

/-! ## `RdfTransformer.parse`: format selection and `provided_by` -/

/-- The input-format decision of `RdfTransformer.parse` (lines 91–103),
parametric in `rdflib.util.guess_format` (an external extension-based
lookup): a successful guess overrides the declared format; with neither,
the three hard-coded suffixes are tried; otherwise the
`Unrecognized RDF format` exception is raised (`Option.none`). -/
def chooseFormat (guess_format : String → Option String) (filename : String)
    (input_format : Option String) : Option String :=
  let input_format :=
    match guess_format filename with
    | Option.some f => Option.some f
    | Option.none => input_format
  match input_format with
  | Option.some f => Option.some f
  | Option.none =>
    if strEnds filename ".ttl" then Option.some "turtle"
    else if strEnds filename ".rdf" then Option.some "xml"
    else if strEnds filename ".owl" then Option.some "xml"
    else Option.none

/-- The `provided_by` metadata computation of `RdfTransformer.parse`
(lines 109–111): when the supplied tag is not `None` and the filename is
a string, the tag is replaced by the filename; the result is stored in
`graph_metadata['provided_by']`.  (`filename = Option.none` stands for a
non-string filename argument.) -/
def parseProvidedBy (filename : Option String) (provided_by : Option String) :
    Option String :=
  match provided_by, filename with
  | Option.some _, Option.some f => Option.some f
  | pb, _ => pb

/-! ## Reification serializer (`ObanRdfTransformer.save`) -/

/-- `ObanRdfTransformer.uriref`: reserved property names resolve through
the fixed `mapping` table, everything else through the prefix manager's
CURIE expansion. -/
def uriref (cmaps : CMap) (id : String) : String :=
  match mapping_lookup id with
  | Option.some u => u
  | Option.none => expand_curie cmaps id

/-- LSB-first binary digit encoding of a natural number. -/
def natChars : Nat → List Char
  | 0 => []
  | Nat.succ n =>
    (if (Nat.succ n) % 2 = 1 then '1' else '0') :: natChars ((Nat.succ n) / 2)
decreasing_by exact Nat.div_lt_self (Nat.succ_pos n) (by decide)

/-- The fresh association IRI minted for the edge at position `n`
(`'urn:uuid:{}'.format(uuid.uuid4())`; the random uuid is modelled as an
injective per-edge supply). -/
def freshIri (n : Nat) : String :=
  String.mk ("urn:uuid:".data ++ natChars n)

/-- The association identifier `save` uses as subject of all triples of
the edge at position `n` (lines 363–366): the stored `id` attribute
wrapped as a `URIRef` when present and not `None`, else a fresh IRI.
(A stored list-valued `id`, which no code path produces, is left
unmodelled.) -/
def assocIdOf (attr : AttrDict) (n : Nat) : Option String :=
  match lookupA attr "id" with
  | Option.some (AttrVal.vStr s) => Option.some s
  | Option.some AttrVal.vNone => Option.some (freshIri n)
  | Option.none => Option.some (freshIri n)
  | Option.some (AttrVal.vList _) => Option.none

/-- The predicate label of an edge (lines 358–360): `relatedTo` when no
`predicate` attribute exists, else `adjitem['predicate'][0]` — the first
list element, or the first character of a plain-string value; indexing
an empty list or `None` is a Python error. -/
def predLabelOf (attr : AttrDict) : Option String :=
  match lookupA attr "predicate" with
  | Option.none => Option.some "relatedTo"
  | Option.some (AttrVal.vList (p :: _)) => Option.some p
  | Option.some (AttrVal.vList []) => Option.none
  | Option.some (AttrVal.vStr s) => Option.some (String.mk (s.data.take 1))
  | Option.some AttrVal.vNone => Option.none

/-- `ObanRdfTransformer.unpack_adjitem`: one triple per value of every
edge attribute outside `rprop_set`, values listified
(`None`-valued attributes would crash CURIE expansion). -/
def unpack_adjitem (cmaps : CMap) (assoc_id : String) (attr : AttrDict) :
    Option (List Triple) :=
  attr.foldlM
    (fun acc kv =>
      if kv.1 ∈ rprop_set then Option.some acc
      else
        match kv.2 with
        | AttrVal.vStr s =>
          Option.some (acc ++ [⟨assoc_id, uriref cmaps kv.1, Term.iri (uriref cmaps s)⟩])
        | AttrVal.vList l =>
          Option.some (acc ++ l.map (fun v => (⟨assoc_id, uriref cmaps kv.1, Term.iri (uriref cmaps v)⟩ : Triple)))
        | AttrVal.vNone => Option.none)
    []

/-- The triples `save` emits for the edge at position `n` (lines
353–372).  The adjacency iteration makes the edge's source node the
OBAN *object* and its target node the OBAN *subject* (`a_object = n`,
`a_subject = nbr`): auxiliary property triples first, then the three
core triples. -/
def saveEdgeTriples (cmaps : CMap) (n : Nat) (e : PEdge) : Option (List Triple) :=
  (predLabelOf e.attr).bind
    (fun pred =>
      (assocIdOf e.attr n).bind
        (fun assoc_id =>
          (unpack_adjitem cmaps assoc_id e.attr).map
            (fun aux =>
              aux ++
              [⟨assoc_id, oban_has_subject, Term.iri (uriref cmaps e.obj)⟩,
               ⟨assoc_id, oban_has_predicate, Term.iri (uriref cmaps pred)⟩,
               ⟨assoc_id, oban_has_object, Term.iri (uriref cmaps e.sub)⟩])))

/-- `ObanRdfTransformer.save`: the triples emitted for the whole graph,
one edge visit per stored edge (the rdflib graph collects them as a
set; no claim below depends on duplicate collapse).  Serialization to
text is the external RDF library's concern. -/
def save (cmaps : CMap) (g : PGraph) : Option (List Triple) :=
  g.edges.enum.foldlM
    (fun acc en => (saveEdgeTriples cmaps en.1 en.2).map (fun ts => acc ++ ts))
    []

/-! ## Concrete fixtures -/

/-- A one-entry configured prefix map. -/
def cmapsEx : CMap := [("EX", "http://example.org/")]

/-- A 2-cycle of exact-match relations with no direct category anywhere. -/
def rgCycle : List Triple :=
  [⟨"http://x/A", exact_match_iri, Term.iri "http://x/B"⟩,
   ⟨"http://x/B", exact_match_iri, Term.iri "http://x/A"⟩]

/-- A chain of exact-match relations of length 5 whose last node has a
direct category (a `subClassOf` triple). -/
def rgChain : List Triple :=
  [⟨"http://x/A1", exact_match_iri, Term.iri "http://x/A2"⟩,
   ⟨"http://x/A2", exact_match_iri, Term.iri "http://x/A3"⟩,
   ⟨"http://x/A3", exact_match_iri, Term.iri "http://x/A4"⟩,
   ⟨"http://x/A4", exact_match_iri, Term.iri "http://x/A5"⟩,
   ⟨"http://x/A5", category_iri, Term.iri "http://purl.obolibrary.org/obo/SO_0000704"⟩]

/-- One OBAN association with two subjects, two objects, one predicate;
every endpoint has a direct category triple (one of them unmapped). -/
def rgAssoc : List Triple :=
  [⟨"http://x/assoc1", rdf_type_iri, Term.iri oban_association⟩,
   ⟨"http://x/assoc1", oban_has_subject, Term.iri "http://example.org/S1"⟩,
   ⟨"http://x/assoc1", oban_has_subject, Term.iri "http://example.org/S2"⟩,
   ⟨"http://x/assoc1", oban_has_object, Term.iri "http://example.org/O1"⟩,
   ⟨"http://x/assoc1", oban_has_object, Term.iri "http://example.org/O2"⟩,
   ⟨"http://x/assoc1", oban_has_predicate, Term.iri "http://example.org/P"⟩,
   ⟨"http://example.org/S1", category_iri, Term.iri "http://purl.obolibrary.org/obo/SO_0000704"⟩,
   ⟨"http://example.org/S2", category_iri, Term.iri "http://purl.obolibrary.org/obo/SO_0000110"⟩,
   ⟨"http://example.org/O1", category_iri, Term.iri "http://x/unknowncat"⟩,
   ⟨"http://example.org/O2", category_iri, Term.iri "http://purl.obolibrary.org/obo/MONDO_0000001"⟩]

/-- A property graph with exactly one edge `EX:A → EX:B`, predicate
`EX:P`, and no extra edge properties. -/
def gC1 : PGraph :=
  { nodes := [("EX:A", [("iri", AttrVal.vStr "http://example.org/A"), ("id", AttrVal.vStr "EX:A")]),
              ("EX:B", [("iri", AttrVal.vStr "http://example.org/B"), ("id", AttrVal.vStr "EX:B")])],
    edges := [⟨"EX:A", "EX:B", [("predicate", AttrVal.vList ["EX:P"])]⟩] }

/-- The graph loaded from the association fixture with the metadata
`parse` actually stores for `provided_by = "graph_source"` and
`filename = "data.ttl"`. -/
def gProv : PGraph :=
  (load_edges cmapsEx rgAssoc
    (parseProvidedBy (Option.some "data.ttl") (Option.some "graph_source")) 10 ⟨[], []⟩).getD ⟨[], []⟩

/-- Decode of the LSB-first binary encoding. -/
def bitsVal : List Char → Nat
  | [] => 0
  | c :: cs => (if c = '1' then 1 else 0) + 2 * bitsVal cs

/-- An edge carrying a stored association id. -/
def eC9 : PEdge :=
  ⟨"EX:A", "EX:B", [("id", AttrVal.vStr "http://x/assoc1"), ("predicate", AttrVal.vList ["EX:P"])]⟩

/-- The triples `save` emits for `eC9` at position 0. -/
def tsC9 : List Triple := (saveEdgeTriples cmapsEx 0 eC9).getD []

/-- The attribute dictionary of an existing node (C10 witness). -/
def attrC10 : AttrDict := [("name", AttrVal.vList ["existing"])]

/-- A graph that already contains node `EX:N1` (C10 witness). -/
def gC10 : PGraph := ⟨[("EX:N1", attrC10), ("EX:N2", [])], []⟩

/-- The attributes the resolver returns for `O1` of `rgAssoc`: a single
raw category IRI absent from the label table (C7 witness). -/
def rawO1 : AttrSets := (get_node_attr 10 rgAssoc "http://example.org/O1").getD []

/-- The `edge_attr` dictionary of the fixture association (C3 witness). -/
def eaAssoc : AttrDict :=
  (buildEdgeAttr cmapsEx rgAssoc (Option.some "tag") "http://x/assoc1").getD []

/-- The graph produced by processing the fixture association once
(C3 witness). -/
def gAssoc : PGraph :=
  (processAssociation cmapsEx rgAssoc (Option.some "tag") 10 ⟨[], []⟩ "http://x/assoc1").getD ⟨[], []⟩

/-- The graph loaded from the fixture association (C6 witness). -/
def gLoaded : PGraph := (load_edges cmapsEx rgAssoc (Option.some "tag") 10 ⟨[], []⟩).getD ⟨[], []⟩

/-! ## Association-list lemmas -/

section AssocKit

variable {α : Type}

lemma lookupA_append (m1 m2 : List (String × α)) (k : String) :
    lookupA (m1 ++ m2) k = (lookupA m1 k).or (lookupA m2 k) := by
  induction m1 with
  | nil => simp [lookupA]
  | cons kv m ih =>
    rw [List.cons_append]
    by_cases h : kv.1 == k <;> simp [lookupA, h, ih]

lemma lookupA_append_single_ne {k k0 : String} (m : List (String × α)) (v : α)
    (h : k ≠ k0) : lookupA (m ++ [(k0, v)]) k = lookupA m k := by
  rw [lookupA_append]
  have h2 : lookupA [(k0, v)] k = Option.none := by simp [lookupA, Ne.symm h]
  rw [h2]
  cases lookupA m k <;> rfl

lemma lookupA_eq_none_iff {m : List (String × α)} {k : String} :
    lookupA m k = Option.none ↔ k ∉ m.map Prod.fst := by
  induction m with
  | nil => simp [lookupA]
  | cons kv m ih =>
    by_cases h : kv.1 == k
    · simp only [lookupA, if_pos h, List.map_cons, List.mem_cons]
      constructor
      · intro hh; cases hh
      · intro hh
        exact absurd (Or.inl (show k = kv.1 from (by simpa using h : kv.1 = k).symm)) hh
    · simp only [lookupA, if_neg h, List.map_cons, List.mem_cons, ih]
      constructor
      · intro hh hcon
        rcases hcon with h1 | h1
        · exact h (by simpa using h1.symm)
        · exact hh h1
      · intro hh h1
        exact hh (Or.inr h1)

lemma hasKeyA_true_iff {m : List (String × α)} {k : String} :
    hasKeyA m k = true ↔ k ∈ m.map Prod.fst := by
  rw [hasKeyA]
  cases hm : lookupA m k with
  | some v =>
    simp only [Option.isSome_some, true_iff]
    by_contra hmem
    rw [lookupA_eq_none_iff.2 hmem] at hm
    cases hm
  | none => simpa using lookupA_eq_none_iff.1 hm

lemma hasKeyA_false_iff {m : List (String × α)} {k : String} :
    hasKeyA m k = false ↔ k ∉ m.map Prod.fst := by
  rw [← hasKeyA_true_iff]
  cases hasKeyA m k <;> simp

lemma hasKeyA_of_lookupA {m : List (String × α)} {k : String} {v : α}
    (h : lookupA m k = Option.some v) : hasKeyA m k = true := by
  rw [hasKeyA, h]; rfl

lemma lookupA_setA_self (m : List (String × α)) (k : String) (v : α) :
    lookupA (setA m k v) k = Option.some v := by
  induction m with
  | nil => simp [setA, lookupA]
  | cons kv m ih =>
    by_cases h : kv.1 == k <;> simp [setA, lookupA, h, ih]

lemma lookupA_setA_ne (m : List (String × α)) (k : String) (v : α) {k' : String}
    (h : k' ≠ k) : lookupA (setA m k v) k' = lookupA m k' := by
  induction m with
  | nil => simp [setA, lookupA, Ne.symm h]
  | cons kv m ih =>
    by_cases hkv : kv.1 == k
    · have hne : ¬ (kv.1 == k') := by
        intro hh
        exact h ((show kv.1 = k' from by simpa using hh) ▸ (by simpa using hkv))
      simp [setA, lookupA, hkv, Ne.symm h, hne]
    · by_cases hk' : kv.1 == k' <;> simp [setA, lookupA, hkv, hk', ih]

lemma lookupA_removeA_self (m : List (String × α)) (k : String) :
    lookupA (removeA m k) k = Option.none := by
  apply lookupA_eq_none_iff.2
  intro hmem
  rcases List.mem_map.1 hmem with ⟨kv, hkv, hk⟩
  have := (List.mem_filter.1 hkv).2
  simp [hk] at this

lemma lookupA_removeA_ne (m : List (String × α)) (k : String) {k' : String}
    (h : k' ≠ k) : lookupA (removeA m k) k' = lookupA m k' := by
  induction m with
  | nil => rfl
  | cons kv m ih =>
    rw [removeA, List.filter_cons]
    by_cases hkv : kv.1 == k
    · have hb : (kv.1 != k) = false := by simpa [bne] using hkv
      have hne : ¬ (kv.1 == k') := by
        intro hh
        exact h ((show kv.1 = k' from by simpa using hh) ▸ (by simpa using hkv))
      rw [hb]
      simp only [Bool.false_eq_true, if_false]
      rw [show lookupA (kv :: m) k' = lookupA m k' from by simp [lookupA, hne]]
      exact ih
    · have hb : (kv.1 != k) = true := by simpa [bne] using hkv
      rw [hb]
      simp only [if_true]
      by_cases hk' : kv.1 == k'
      · simp [lookupA, hk']
      · simp only [lookupA, if_neg hk']
        exact ih

lemma keys_setA_of_mem {m : List (String × α)} {k : String} (v : α)
    (h : k ∈ m.map Prod.fst) : (setA m k v).map Prod.fst = m.map Prod.fst := by
  induction m with
  | nil => simp at h
  | cons kv m ih =>
    by_cases hkv : kv.1 == k
    · simp [setA, hkv]
      exact (show kv.1 = k from by simpa using hkv).symm
    · have h2 : k ∈ m.map Prod.fst := by
        rw [List.map_cons] at h
        rcases List.mem_cons.1 h with h1 | h1
        · exact absurd h1.symm (by simpa using hkv)
        · exact h1
      simp [setA, hkv, ih h2]

end AssocKit

/-! ## C2: the category resolver does not terminate -/

/-- Unfolding of `get_node_attr` at positive fuel when the direct
triples yield no category. -/
lemma gna_succ (fuel : Nat) (rg : List Triple) (x : String)
    (h : hasKeyA (directAttrs rg x) "category" = false) :
    get_node_attr (fuel + 1) rg x =
      (matchTargets rg x).foldl
        (fun acc n => acc.bind (fun a => (get_node_attr fuel rg n).map (fun sub => mergeAttr a sub)))
        (Option.some (directAttrs rg x)) := by
  simp only [get_node_attr, h]
  simp

/-- The recursion fold never recovers from a failed accumulator. -/
lemma gna_foldl_none (fuel : Nat) (rg : List Triple) (l : List String) :
    l.foldl
      (fun acc n => acc.bind (fun a => (get_node_attr fuel rg n).map (fun sub => mergeAttr a sub)))
      Option.none = Option.none := by
  induction l with
  | nil => rfl
  | cons t ts ih => simpa using ih

/-- One failing recursion target sinks the whole fold. -/
lemma gna_foldl_mem_none (fuel : Nat) (rg : List Triple) {m : String}
    (hm : get_node_attr fuel rg m = Option.none) :
    ∀ (l : List String), m ∈ l → ∀ a : Option AttrSets,
      l.foldl
        (fun acc n => acc.bind (fun a2 => (get_node_attr fuel rg n).map (fun sub => mergeAttr a2 sub)))
        a = Option.none := by
  intro l
  induction l with
  | nil => intro h; cases h
  | cons t ts ih =>
    intro hmem a
    rcases List.mem_cons.1 hmem with h | h
    · subst h
      have hstep : (a.bind (fun a2 => (get_node_attr fuel rg m).map (fun sub => mergeAttr a2 sub))) = Option.none := by
        cases a <;> simp [hm]
      simp only [List.foldl_cons, hstep]
      exact gna_foldl_none fuel rg ts
    · rw [List.foldl_cons]
      exact ih h _

/-- On the 2-cycle, both nodes exhaust any recursion budget. -/
lemma cycle_pair : ∀ n, get_node_attr n rgCycle "http://x/A" = Option.none ∧
    get_node_attr n rgCycle "http://x/B" = Option.none := by
  intro n
  induction n with
  | zero => exact ⟨rfl, rfl⟩
  | succ n ih =>
    constructor
    · rw [gna_succ n rgCycle "http://x/A" (by decide),
          show matchTargets rgCycle "http://x/A" = ["http://x/B", "http://x/B"] from by decide]
      exact gna_foldl_mem_none n rgCycle ih.2 _ (by decide) _
    · rw [gna_succ n rgCycle "http://x/B" (by decide),
          show matchTargets rgCycle "http://x/B" = ["http://x/A", "http://x/A"] from by decide]
      exact gna_foldl_mem_none n rgCycle ih.1 _ (by decide) _

/-- On the 5-chain, the four categoryless nodes exhaust any recursion
budget: the backward exact-match filter keeps re-entering already
visited nodes. -/
lemma chain_tuple : ∀ n,
    get_node_attr n rgChain "http://x/A1" = Option.none ∧
    get_node_attr n rgChain "http://x/A2" = Option.none ∧
    get_node_attr n rgChain "http://x/A3" = Option.none ∧
    get_node_attr n rgChain "http://x/A4" = Option.none := by
  intro n
  induction n with
  | zero => exact ⟨rfl, rfl, rfl, rfl⟩
  | succ n ih =>
    refine ⟨?_, ?_, ?_, ?_⟩
    · rw [gna_succ n rgChain "http://x/A1" (by decide),
          show matchTargets rgChain "http://x/A1" = ["http://x/A2"] from by decide]
      exact gna_foldl_mem_none n rgChain ih.2.1 _ (by decide) _
    · rw [gna_succ n rgChain "http://x/A2" (by decide),
          show matchTargets rgChain "http://x/A2" = ["http://x/A3", "http://x/A1"] from by decide]
      exact gna_foldl_mem_none n rgChain ih.2.2.1 _ (by decide) _
    · rw [gna_succ n rgChain "http://x/A3" (by decide),
          show matchTargets rgChain "http://x/A3" = ["http://x/A4", "http://x/A2"] from by decide]
      exact gna_foldl_mem_none n rgChain ih.2.2.2 _ (by decide) _
    · rw [gna_succ n rgChain "http://x/A4" (by decide),
          show matchTargets rgChain "http://x/A4" = ["http://x/A5", "http://x/A3"] from by decide]
      exact gna_foldl_mem_none n rgChain ih.2.2.1 _ (by decide) _

/-- C2: category-resolution termination FAILS in the code.  On both the
2-cycle of exact-match relations and the 5-chain ending in a node with a
direct category, `get_node_attr` exhausts every finite recursion budget
(the Python original, which has no visited set, recurses without bound
on these inputs instead of terminating). -/
theorem C2_get_node_attr_diverges :
    (∀ fuel, get_node_attr fuel rgCycle "http://x/A" = Option.none) ∧
    (∀ fuel, get_node_attr fuel rgChain "http://x/A1" = Option.none) :=
  ⟨fun n => (cycle_pair n).1, fun n => (chain_tuple n).1⟩

/-! ## C1: save → load round trip -/

/-- C1: the round trip FAILS in the code.  Serializing the one-edge
graph emits three triples but no `rdf:type oban:association` marker, so
`load_edges` finds no association in them and reloading yields the empty
graph — not a graph with the two node ids and an `A → B` edge. -/
theorem C1_roundtrip_collapses :
    (save cmapsEx gC1).bind (fun ts => load_edges cmapsEx ts (Option.some "tag") 100 ⟨[], []⟩) =
      Option.some (⟨[], []⟩ : PGraph) ∧
    (save cmapsEx gC1).map List.length = Option.some 3 ∧
    (save cmapsEx gC1).map associationsOf = Option.some [] :=
  ⟨rfl, rfl, rfl⟩

/-! ## C4: unknown-namespace pass-through -/

/-- C4: an IRI starting with none of the configured namespace base IRIs
contracts to no CURIE, and `curie` returns it unchanged. -/
theorem C4_unknown_namespace (cmaps : CMap) (uri : String)
    (h : ∀ pb ∈ cmaps, strStarts uri pb.2 = false) :
    curie cmaps uri = uri := by
  have hc : contract_uri cmaps uri = [] :=
    List.filterMap_eq_nil_iff.2 (fun pb hpb => by simp [contract_uri, h pb hpb])
  simp [curie, hc]

/-- Witness for C4 at a concrete unknown IRI. -/
theorem C4_unknown_namespace_witness :
    (∀ pb ∈ cmapsEx, strStarts "http://unknown.org/x" pb.2 = false) ∧
    curie cmapsEx "http://unknown.org/x" = "http://unknown.org/x" :=
  ⟨by decide, C4_unknown_namespace cmapsEx "http://unknown.org/x" (by decide)⟩

/-! ## C5: `provided_by` propagation -/

/-- C5: `provided_by` propagation FAILS in the code.  `parse` replaces a
non-`None` `provided_by` tag by the filename (source line 109 tests
`provided_by is not None` where only `None` should be defaulted), so
every loaded edge carries the filename, not the supplied tag. -/
theorem C5_provided_by_overwritten :
    parseProvidedBy (Option.some "data.ttl") (Option.some "graph_source") =
      Option.some "data.ttl" ∧
    load_edges cmapsEx rgAssoc
      (parseProvidedBy (Option.some "data.ttl") (Option.some "graph_source")) 10 ⟨[], []⟩ =
      Option.some gProv ∧
    gProv.edges ≠ [] ∧
    (∀ e ∈ gProv.edges, lookupA e.attr "provided_by" = Option.some (AttrVal.vStr "data.ttl")) ∧
    (∀ e ∈ gProv.edges, lookupA e.attr "provided_by" ≠ Option.some (AttrVal.vStr "graph_source")) :=
  ⟨rfl, rfl, by decide, by decide, by decide⟩

/-! ## C8: format-error condition of `parse` -/

/-- C8: `parse` raises its unrecognized-format error exactly when the
extension-based guess fails, no input format was declared, and the
filename ends in none of `.ttl`, `.rdf`, `.owl`; whenever the guess or
the declared format identifies a syntax, parsing proceeds with it. -/
theorem C8_format_error_iff (gf : String → Option String) (filename : String)
    (input_format : Option String) :
    chooseFormat gf filename input_format = Option.none ↔
      gf filename = Option.none ∧ input_format = Option.none ∧
      strEnds filename ".ttl" = false ∧ strEnds filename ".rdf" = false ∧
      strEnds filename ".owl" = false := by
  unfold chooseFormat
  cases hg : gf filename with
  | some f => simp
  | none =>
    cases input_format with
    | some f => simp
    | none =>
      constructor
      · intro h
        split_ifs at h with h1 h2 h3
        all_goals simp_all
      · intro h
        simp [h.2.2.1, h.2.2.2.1, h.2.2.2.2]

/-! ## C9: association identifier used by the serializer -/

/-- `natChars` is left-inverted by `bitsVal`. -/
lemma bitsVal_natChars (n : Nat) : bitsVal (natChars n) = n := by
  induction n using Nat.strong_induction_on with
  | _ n ih =>
    match n with
    | 0 => simp [natChars, bitsVal]
    | Nat.succ k =>
      rw [natChars]
      have ihh := ih ((k + 1) / 2) (Nat.div_lt_self (Nat.succ_pos k) (by decide))
      have hdm := Nat.div_add_mod (k + 1) 2
      rcases Nat.mod_two_eq_zero_or_one (k + 1) with h | h
      · rw [h] at hdm
        simp [bitsVal, h, ihh]
        omega
      · rw [h] at hdm
        simp [bitsVal, h, ihh]
        omega

/-- Distinct edge positions receive distinct synthesized IRIs. -/
lemma freshIri_inj {n m : Nat} (h : freshIri n = freshIri m) : n = m := by
  unfold freshIri at h
  have hd : "urn:uuid:".data ++ natChars n = "urn:uuid:".data ++ natChars m := by
    have := congrArg String.data h
    simpa using this
  have hc : natChars n = natChars m := List.append_cancel_left hd
  have := congrArg bitsVal hc
  rwa [bitsVal_natChars, bitsVal_natChars] at this

/-- Every auxiliary triple of `unpack_adjitem` has the association
identifier as its subject (fold invariant). -/
lemma unpack_subject_aux (cmaps : CMap) (aid : String) :
    ∀ (attr : AttrDict) (acc l : List Triple),
      (attr.foldlM
        (fun acc2 kv =>
          if kv.1 ∈ rprop_set then Option.some acc2
          else
            match kv.2 with
            | AttrVal.vStr s =>
              Option.some (acc2 ++ [⟨aid, uriref cmaps kv.1, Term.iri (uriref cmaps s)⟩])
            | AttrVal.vList ll =>
              Option.some (acc2 ++ ll.map (fun v => (⟨aid, uriref cmaps kv.1, Term.iri (uriref cmaps v)⟩ : Triple)))
            | AttrVal.vNone => Option.none)
        acc) = Option.some l →
      (∀ t ∈ acc, t.s = aid) → ∀ t ∈ l, t.s = aid := by
  intro attr
  induction attr with
  | nil =>
    intro acc l h hacc
    have h2 : Option.some acc = Option.some l := h
    cases h2; exact hacc
  | cons kv rest ih =>
    intro acc l h hacc
    rw [List.foldlM_cons] at h
    by_cases hk : kv.1 ∈ rprop_set
    · rw [if_pos hk] at h
      simp only [Option.bind_eq_bind, Option.some_bind] at h
      exact ih acc l h hacc
    · rw [if_neg hk] at h
      cases hv : kv.2 with
      | vStr s =>
        rw [hv] at h
        simp only [Option.bind_eq_bind, Option.some_bind] at h
        refine ih _ l h ?_
        intro t ht
        rcases List.mem_append.1 ht with h1 | h1
        · exact hacc t h1
        · simp at h1; subst h1; rfl
      | vList ll =>
        rw [hv] at h
        simp only [Option.bind_eq_bind, Option.some_bind] at h
        refine ih _ l h ?_
        intro t ht
        rcases List.mem_append.1 ht with h1 | h1
        · exact hacc t h1
        · rcases List.mem_map.1 h1 with ⟨v, _, rfl⟩; rfl
      | vNone =>
        rw [hv] at h
        simp at h

/-- Every auxiliary triple of `unpack_adjitem` has the association
identifier as its subject. -/
lemma unpack_subject (cmaps : CMap) (aid : String) (attr : AttrDict) (l : List Triple)
    (h : unpack_adjitem cmaps aid attr = Option.some l) : ∀ t ∈ l, t.s = aid :=
  unpack_subject_aux cmaps aid attr [] l h (by intro t ht; cases ht)

/-- C9: every triple `save` emits for an edge has as subject the edge's
stored `id` attribute (wrapped as an IRI) when that attribute is present
and not `None`, and otherwise the synthesized IRI of the edge's
position, which differs from every other position's. -/
theorem C9_assoc_identifier (cmaps : CMap) (n : Nat) (e : PEdge) (ts : List Triple)
    (h : saveEdgeTriples cmaps n e = Option.some ts) :
    (∀ s, lookupA e.attr "id" = Option.some (AttrVal.vStr s) → ∀ t ∈ ts, t.s = s) ∧
    ((lookupA e.attr "id" = Option.none ∨ lookupA e.attr "id" = Option.some AttrVal.vNone) →
      ∀ t ∈ ts, t.s = freshIri n) ∧
    (∀ m, n ≠ m → freshIri n ≠ freshIri m) := by
  simp only [saveEdgeTriples, Option.bind_eq_some, Option.map_eq_some'] at h
  obtain ⟨pred, hpred, aid, haid, aux, haux, hts⟩ := h
  have hmem : ∀ t ∈ ts, t.s = aid := by
    subst hts
    intro t ht
    rcases List.mem_append.1 ht with h1 | h1
    · exact unpack_subject cmaps aid e.attr aux haux t h1
    · simp only [List.mem_cons, List.mem_singleton, List.not_mem_nil] at h1
      rcases h1 with rfl | rfl | rfl | hf
      · rfl
      · rfl
      · rfl
      · cases hf
  refine ⟨?_, ?_, ?_⟩
  · intro s hs t ht
    rw [hmem t ht]
    unfold assocIdOf at haid
    rw [hs] at haid
    simpa using haid.symm
  · intro hid t ht
    rw [hmem t ht]
    unfold assocIdOf at haid
    rcases hid with hid | hid <;> rw [hid] at haid <;> simpa using haid.symm
  · intro m hnm heq
    exact hnm (freshIri_inj heq)

/-- Witness for C9 at a concrete edge. -/
theorem C9_assoc_identifier_witness :
    saveEdgeTriples cmapsEx 0 eC9 = Option.some tsC9 ∧
    ((∀ s, lookupA eC9.attr "id" = Option.some (AttrVal.vStr s) → ∀ t ∈ tsC9, t.s = s) ∧
     ((lookupA eC9.attr "id" = Option.none ∨ lookupA eC9.attr "id" = Option.some AttrVal.vNone) →
       ∀ t ∈ tsC9, t.s = freshIri 0) ∧
     (∀ m, 0 ≠ m → freshIri 0 ≠ freshIri m)) :=
  ⟨rfl, C9_assoc_identifier cmapsEx 0 eC9 tsC9 rfl⟩

/-! ## C10 / C7: node attribute handling of `load_edges` -/

/-- `touchExistingAttr` leaves every key other than `iri`/`id` alone. -/
lemma touch_ne (attr : AttrDict) (iri nid : String) {k : String}
    (h1 : k ≠ "iri") (h2 : k ≠ "id") :
    lookupA (touchExistingAttr attr iri nid) k = lookupA attr k := by
  rw [touchExistingAttr]
  by_cases hi : hasKeyA attr "iri"
  · rw [if_pos hi]
    by_cases hd : hasKeyA attr "id"
    · rw [if_pos hd]
    · rw [if_neg hd]
      exact lookupA_append_single_ne attr _ h2
  · rw [if_neg hi]
    by_cases hd : hasKeyA (attr ++ [("iri", AttrVal.vStr iri)]) "id"
    · rw [if_pos hd]
      exact lookupA_append_single_ne attr _ h1
    · rw [if_neg hd]
      rw [lookupA_append_single_ne _ _ h2]
      exact lookupA_append_single_ne attr _ h1

/-- `touchExistingAttr` keeps a present `iri` and fills a missing one. -/
lemma touch_iri (attr : AttrDict) (iri nid : String) :
    lookupA (touchExistingAttr attr iri nid) "iri" =
      Option.some ((lookupA attr "iri").getD (AttrVal.vStr iri)) := by
  rw [touchExistingAttr]
  by_cases hi : hasKeyA attr "iri"
  · rw [if_pos hi]
    rcases Option.isSome_iff_exists.1 (by rw [hasKeyA] at hi; exact hi) with ⟨v, hv⟩
    by_cases hd : hasKeyA attr "id"
    · rw [if_pos hd, hv]; rfl
    · rw [if_neg hd, lookupA_append_single_ne attr _ (by decide), hv]; rfl
  · rw [if_neg hi]
    have hnone : lookupA attr "iri" = Option.none := by
      rw [hasKeyA] at hi
      exact Option.not_isSome_iff_eq_none.1 hi
    have hlook : lookupA (attr ++ [("iri", AttrVal.vStr iri)]) "iri" =
        Option.some (AttrVal.vStr iri) := by
      rw [lookupA_append, hnone]
      simp [lookupA]
    by_cases hd : hasKeyA (attr ++ [("iri", AttrVal.vStr iri)]) "id"
    · rw [if_pos hd, hlook, hnone]; rfl
    · rw [if_neg hd, lookupA_append_single_ne _ _ (by decide), hlook, hnone]; rfl

/-- `touchExistingAttr` keeps a present `id` and fills a missing one. -/
lemma touch_id (attr : AttrDict) (iri nid : String) :
    lookupA (touchExistingAttr attr iri nid) "id" =
      Option.some ((lookupA attr "id").getD (AttrVal.vStr nid)) := by
  rw [touchExistingAttr]
  have hstep : ∀ (a1 : AttrDict), lookupA a1 "id" = lookupA attr "id" →
      lookupA (if hasKeyA a1 "id" then a1 else a1 ++ [("id", AttrVal.vStr nid)]) "id" =
        Option.some ((lookupA attr "id").getD (AttrVal.vStr nid)) := by
    intro a1 ha1
    by_cases hd : hasKeyA a1 "id"
    · rw [if_pos hd]
      rcases Option.isSome_iff_exists.1 (by rw [hasKeyA] at hd; exact hd) with ⟨v, hv⟩
      rw [hv, ← ha1, hv]; rfl
    · rw [if_neg hd]
      have hnone : lookupA a1 "id" = Option.none := by
        rw [hasKeyA] at hd
        exact Option.not_isSome_iff_eq_none.1 hd
      rw [lookupA_append, hnone, ← ha1, hnone]
      simp [lookupA]
  by_cases hi : hasKeyA attr "iri"
  · rw [if_pos hi]
    exact hstep attr rfl
  · rw [if_neg hi]
    exact hstep _ (lookupA_append_single_ne attr _ (by decide))

/-- C10: when the endpoint's node id already exists, `load_edges` only
rewrites that node with `touchExistingAttr`: every attribute other than
`iri`/`id` keeps its value, `iri`/`id` keep their values when present
and are filled in when missing, other nodes and the edge list are
untouched. -/
theorem C10_existing_node_preserved (cmaps : CMap) (rg : List Triple) (fuel : Nat)
    (g : PGraph) (iri : String) (attr : AttrDict)
    (hl : lookupA g.nodes (curie cmaps iri) = Option.some attr) :
    nodeStep cmaps rg fuel g iri =
      Option.some (g.set_node (curie cmaps iri) (touchExistingAttr attr iri (curie cmaps iri))) ∧
    (∀ k, k ≠ "iri" → k ≠ "id" →
      lookupA (touchExistingAttr attr iri (curie cmaps iri)) k = lookupA attr k) ∧
    lookupA (touchExistingAttr attr iri (curie cmaps iri)) "iri" =
      Option.some ((lookupA attr "iri").getD (AttrVal.vStr iri)) ∧
    lookupA (touchExistingAttr attr iri (curie cmaps iri)) "id" =
      Option.some ((lookupA attr "id").getD (AttrVal.vStr (curie cmaps iri))) ∧
    (∀ id2, id2 ≠ curie cmaps iri →
      lookupA (g.set_node (curie cmaps iri)
        (touchExistingAttr attr iri (curie cmaps iri))).nodes id2 = lookupA g.nodes id2) ∧
    (g.set_node (curie cmaps iri) (touchExistingAttr attr iri (curie cmaps iri))).edges = g.edges := by
  have hhn : g.has_node (curie cmaps iri) = true := by
    rw [PGraph.has_node, hasKeyA, hl]; rfl
  refine ⟨?_, fun k hk1 hk2 => touch_ne attr iri _ hk1 hk2,
    touch_iri attr iri _, touch_id attr iri _,
    fun id2 h2 => lookupA_setA_ne g.nodes _ _ h2, rfl⟩
  simp only [nodeStep, hhn, if_true, hl]



/-- Witness for C10 at a concrete stored node. -/
theorem C10_existing_node_preserved_witness :
    lookupA gC10.nodes (curie cmapsEx "http://example.org/N1") = Option.some attrC10 ∧
    (nodeStep cmapsEx [] 0 gC10 "http://example.org/N1" =
      Option.some (gC10.set_node (curie cmapsEx "http://example.org/N1")
        (touchExistingAttr attrC10 "http://example.org/N1" (curie cmapsEx "http://example.org/N1"))) ∧
     (∀ k, k ≠ "iri" → k ≠ "id" →
       lookupA (touchExistingAttr attrC10 "http://example.org/N1" (curie cmapsEx "http://example.org/N1")) k =
         lookupA attrC10 k) ∧
     lookupA (touchExistingAttr attrC10 "http://example.org/N1" (curie cmapsEx "http://example.org/N1")) "iri" =
       Option.some ((lookupA attrC10 "iri").getD (AttrVal.vStr "http://example.org/N1")) ∧
     lookupA (touchExistingAttr attrC10 "http://example.org/N1" (curie cmapsEx "http://example.org/N1")) "id" =
       Option.some ((lookupA attrC10 "id").getD (AttrVal.vStr (curie cmapsEx "http://example.org/N1"))) ∧
     (∀ id2, id2 ≠ curie cmapsEx "http://example.org/N1" →
       lookupA (gC10.set_node (curie cmapsEx "http://example.org/N1")
         (touchExistingAttr attrC10 "http://example.org/N1" (curie cmapsEx "http://example.org/N1"))).nodes id2 =
         lookupA gC10.nodes id2) ∧
     (gC10.set_node (curie cmapsEx "http://example.org/N1")
       (touchExistingAttr attrC10 "http://example.org/N1" (curie cmapsEx "http://example.org/N1"))).edges =
       gC10.edges) :=
  ⟨rfl, C10_existing_node_preserved cmapsEx [] 0 gC10 "http://example.org/N1" attrC10 rfl⟩

/-- C7: for a newly created node, raw category IRIs all absent from
`iri_to_categories_map` make the stored node carry no `category`
attribute at all, while any IRIs present in the table are replaced by
their labels; the creation path of `load_edges` stores exactly
`finalizeNodeAttr` of the resolver's result. -/
theorem C7_unmapped_categories_dropped (raw : AttrSets) (iri node_id : String)
    (cats : List String) (hc : lookupA raw "category" = Option.some cats) :
    ((∀ c ∈ cats, category_label c = Option.none) →
      lookupA (finalizeNodeAttr raw iri node_id) "category" = Option.none) ∧
    (cats.filterMap category_label ≠ [] →
      lookupA (finalizeNodeAttr raw iri node_id) "category" =
        Option.some (AttrVal.vList (cats.filterMap category_label))) ∧
    (∀ (cmaps : CMap) (rg : List Triple) (fuel : Nat) (g : PGraph),
      g.has_node (curie cmaps iri) = false →
      get_node_attr fuel rg iri = Option.some raw →
      nodeStep cmaps rg fuel g iri =
        Option.some (g.add_node (curie cmaps iri) (finalizeNodeAttr raw iri (curie cmaps iri)))) := by
  refine ⟨?_, ?_, ?_⟩
  · intro hall
    have hnil : cats.filterMap category_label = [] := List.filterMap_eq_nil_iff.2 hall
    simp only [finalizeNodeAttr, hc, hnil, bne_self_eq_false, Bool.false_eq_true, if_false]
    exact lookupA_removeA_self _ _
  · intro hne
    have hb : (cats.filterMap category_label != []) = true := by simpa [bne] using hne
    simp only [finalizeNodeAttr, hc, hb, if_true]
    exact lookupA_setA_self _ _ _
  · intro cmaps rg fuel g hfresh hres
    simp only [nodeStep, hfresh, hres, Bool.false_eq_true, if_false, Option.map_some']

/-- Witness for C7 at the unmapped-category endpoint of `rgAssoc`. -/
theorem C7_unmapped_categories_dropped_witness :
    lookupA rawO1 "category" = Option.some ["http://x/unknowncat"] ∧
    (((∀ c ∈ ["http://x/unknowncat"], category_label c = Option.none) →
       lookupA (finalizeNodeAttr rawO1 "http://example.org/O1" "EX:O1") "category" = Option.none) ∧
     (List.filterMap category_label ["http://x/unknowncat"] ≠ [] →
       lookupA (finalizeNodeAttr rawO1 "http://example.org/O1" "EX:O1") "category" =
         Option.some (AttrVal.vList (List.filterMap category_label ["http://x/unknowncat"]))) ∧
     (∀ (cmaps : CMap) (rg : List Triple) (fuel : Nat) (g : PGraph),
       g.has_node (curie cmaps "http://example.org/O1") = false →
       get_node_attr fuel rg "http://example.org/O1" = Option.some rawO1 →
       nodeStep cmaps rg fuel g "http://example.org/O1" =
         Option.some (g.add_node (curie cmaps "http://example.org/O1")
           (finalizeNodeAttr rawO1 "http://example.org/O1" (curie cmaps "http://example.org/O1"))))) :=
  ⟨rfl, C7_unmapped_categories_dropped rawO1 "http://example.org/O1" "EX:O1"
    ["http://x/unknowncat"] rfl⟩

/-! ## C3 / C6: edge bookkeeping of the loader -/

/-- `nodeStep` never touches the edge list. -/
lemma nodeStep_edges {cmaps : CMap} {rg : List Triple} {fuel : Nat} {g g' : PGraph}
    {iri : String} (h : nodeStep cmaps rg fuel g iri = Option.some g') :
    g'.edges = g.edges := by
  rw [nodeStep] at h
  by_cases hn : g.has_node (curie cmaps iri)
  · rw [if_pos hn] at h
    cases hl : lookupA g.nodes (curie cmaps iri) with
    | some attr =>
      rw [hl] at h
      cases h
      rfl
    | none =>
      rw [hl] at h
      cases h
  · rw [if_neg hn] at h
    cases hr : get_node_attr fuel rg iri with
    | some raw =>
      rw [hr] at h
      cases h
      rfl
    | none =>
      rw [hr] at h
      cases h

/-- The node loop never touches the edge list. -/
lemma nodePhase_edges {cmaps : CMap} {rg : List Triple} {fuel : Nat} :
    ∀ {iris : List String} {g h : PGraph},
      nodePhase cmaps rg fuel g iris = Option.some h → h.edges = g.edges := by
  intro iris
  induction iris with
  | nil =>
    intro g h hh
    have h2 : Option.some g = Option.some h := hh
    cases h2; rfl
  | cons i is ih =>
    intro g h hh
    rw [nodePhase, List.foldlM_cons] at hh
    cases hs : nodeStep cmaps rg fuel g i with
    | some g1 =>
      rw [hs] at hh
      simp only [Option.bind_eq_bind, Option.some_bind] at hh
      rw [ih hh]
      exact nodeStep_edges hs
    | none =>
      rw [hs] at hh
      simp at hh

/-- The Cartesian projection has m·n edges. -/
lemma cartEdges_length (cmaps : CMap) (subjects objects : List String) (ea : AttrDict) :
    (cartEdges cmaps subjects objects ea).length = subjects.length * objects.length := by
  induction subjects with
  | nil => simp [cartEdges]
  | cons s ss ih =>
    simp only [cartEdges, List.map_cons, List.flatten_cons, List.length_append,
      List.length_map, List.length_cons]
    rw [show (ss.map (fun s => objects.map (fun o => (⟨curie cmaps s, curie cmaps o, ea⟩ : PEdge)))).flatten.length
        = ss.length * objects.length from by simpa [cartEdges] using ih]
    ring

/-- C3: one association contributes exactly the Cartesian product of its
subject and object lists: the edges appended by `processAssociation` are
the pairs `(curie s, curie o)` (both inclusions proved), they all carry
the identical `edge_attr` dictionary, and their number is m·n. -/
theorem C3_cartesian_expansion (cmaps : CMap) (rg : List Triple)
    (provided_by : Option String) (fuel : Nat) (g g2 : PGraph) (association : String)
    (ea : AttrDict)
    (hea : buildEdgeAttr cmaps rg provided_by association = Option.some ea)
    (hp : processAssociation cmaps rg provided_by fuel g association = Option.some g2) :
    g2.edges = g.edges ++ cartEdges cmaps (attrList ea "subject") (attrList ea "object") ea ∧
    (cartEdges cmaps (attrList ea "subject") (attrList ea "object") ea).length =
      (attrList ea "subject").length * (attrList ea "object").length ∧
    (∀ e ∈ cartEdges cmaps (attrList ea "subject") (attrList ea "object") ea,
      e.attr = ea ∧ ∃ s ∈ attrList ea "subject", ∃ o ∈ attrList ea "object",
        e.sub = curie cmaps s ∧ e.obj = curie cmaps o) ∧
    (∀ s ∈ attrList ea "subject", ∀ o ∈ attrList ea "object",
      (⟨curie cmaps s, curie cmaps o, ea⟩ : PEdge) ∈
        cartEdges cmaps (attrList ea "subject") (attrList ea "object") ea) := by
  refine ⟨?_, cartEdges_length cmaps _ _ ea, ?_, ?_⟩
  · rw [processAssociation, hea] at hp
    simp only [Option.bind_eq_bind, Option.some_bind, Option.map_eq_some'] at hp
    rcases hp with ⟨h, hph, hg2⟩
    rw [← hg2]
    simp only [List.append_cancel_left_eq]
    rw [nodePhase_edges hph]
  · intro e he
    simp only [cartEdges, List.mem_flatten, List.mem_map] at he
    rcases he with ⟨l, ⟨s, hs, rfl⟩, he⟩
    rcases List.mem_map.1 he with ⟨o, ho, rfl⟩
    exact ⟨rfl, s, hs, o, ho, rfl, rfl⟩
  · intro s hs o ho
    simp only [cartEdges, List.mem_flatten]
    refine ⟨(attrList ea "object").map (fun o => ⟨curie cmaps s, curie cmaps o, ea⟩), ?_, ?_⟩
    · exact List.mem_map.2 ⟨s, hs, rfl⟩
    · exact List.mem_map.2 ⟨o, ho, rfl⟩

/-- Witness for C3: the fixture association has subject list of length 2
and object list of length 2, yielding the 4 product edges. -/
theorem C3_cartesian_expansion_witness :
    buildEdgeAttr cmapsEx rgAssoc (Option.some "tag") "http://x/assoc1" = Option.some eaAssoc ∧
    processAssociation cmapsEx rgAssoc (Option.some "tag") 10 ⟨[], []⟩ "http://x/assoc1" =
      Option.some gAssoc ∧
    (gAssoc.edges = PGraph.edges ⟨[], []⟩ ++
        cartEdges cmapsEx (attrList eaAssoc "subject") (attrList eaAssoc "object") eaAssoc ∧
      (cartEdges cmapsEx (attrList eaAssoc "subject") (attrList eaAssoc "object") eaAssoc).length =
        (attrList eaAssoc "subject").length * (attrList eaAssoc "object").length ∧
      (∀ e ∈ cartEdges cmapsEx (attrList eaAssoc "subject") (attrList eaAssoc "object") eaAssoc,
        e.attr = eaAssoc ∧ ∃ s ∈ attrList eaAssoc "subject", ∃ o ∈ attrList eaAssoc "object",
          e.sub = curie cmapsEx s ∧ e.obj = curie cmapsEx o) ∧
      (∀ s ∈ attrList eaAssoc "subject", ∀ o ∈ attrList eaAssoc "object",
        (⟨curie cmapsEx s, curie cmapsEx o, eaAssoc⟩ : PEdge) ∈
          cartEdges cmapsEx (attrList eaAssoc "subject") (attrList eaAssoc "object") eaAssoc)) :=
  ⟨rfl, rfl, C3_cartesian_expansion cmapsEx rgAssoc (Option.some "tag") 10 ⟨[], []⟩ gAssoc
    "http://x/assoc1" eaAssoc rfl rfl⟩

/-! ## C6: idempotence on nodes, duplication of edges -/

/-- A successful lookup witnesses key membership. -/
lemma lookupA_some_mem {α : Type} {m : List (String × α)} {k : String} {v : α}
    (h : lookupA m k = Option.some v) : k ∈ m.map Prod.fst := by
  by_contra hmem
  rw [lookupA_eq_none_iff.2 hmem] at h
  cases h

/-- Writing back the value already stored changes nothing. -/
lemma setA_nop {α : Type} {m : List (String × α)} {k : String} {v : α}
    (h : lookupA m k = Option.some v) : setA m k v = m := by
  induction m with
  | nil => cases h
  | cons kv m ih =>
    by_cases hk : kv.1 == k
    · rw [setA]
      rw [if_pos hk]
      rw [show lookupA (kv :: m) k = Option.some kv.2 from by simp [lookupA, hk]] at h
      have hv : v = kv.2 := (Option.some.inj h).symm
      have hkk : k = kv.1 := (by simpa using hk : kv.1 = k).symm
      rw [hv, hkk]
    · rw [setA, if_neg hk]
      rw [show lookupA (kv :: m) k = lookupA m k from by simp [lookupA, hk]] at h
      rw [ih h]

/-- `touchExistingAttr` always leaves both `iri` and `id` present. -/
lemma touch_haskeys (attr : AttrDict) (iri nid : String) :
    hasKeyA (touchExistingAttr attr iri nid) "iri" = true ∧
    hasKeyA (touchExistingAttr attr iri nid) "id" = true :=
  ⟨hasKeyA_of_lookupA (touch_iri attr iri nid),
   hasKeyA_of_lookupA (touch_id attr iri nid)⟩

/-- `touchExistingAttr` is the identity when both keys are present. -/
lemma touch_nop (attr : AttrDict) (iri nid : String)
    (h1 : hasKeyA attr "iri" = true) (h2 : hasKeyA attr "id" = true) :
    touchExistingAttr attr iri nid = attr := by
  simp only [touchExistingAttr, h1, h2, if_true]

/-- Newly created nodes always carry `iri` and `id`. -/
lemma finalize_haskeys (raw : AttrSets) (iri nid : String) :
    hasKeyA (finalizeNodeAttr raw iri nid) "iri" = true ∧
    hasKeyA (finalizeNodeAttr raw iri nid) "id" = true := by
  rw [finalizeNodeAttr]
  have hbase : ∀ (b : AttrDict),
      lookupA (setA (setA b "iri" (AttrVal.vStr iri)) "id" (AttrVal.vStr nid)) "iri" =
        Option.some (AttrVal.vStr iri) ∧
      lookupA (setA (setA b "iri" (AttrVal.vStr iri)) "id" (AttrVal.vStr nid)) "id" =
        Option.some (AttrVal.vStr nid) := by
    intro b
    constructor
    · rw [lookupA_setA_ne _ _ _ (by decide)]
      exact lookupA_setA_self _ _ _
    · exact lookupA_setA_self _ _ _
  cases hc : lookupA raw "category" with
  | none =>
    simp only [hc]
    exact ⟨hasKeyA_of_lookupA (hbase _).1, hasKeyA_of_lookupA (hbase _).2⟩
  | some cats =>
    simp only [hc]
    by_cases hne : (cats.filterMap category_label != []) = true
    · rw [hne]
      simp only [if_true]
      constructor
      · exact hasKeyA_of_lookupA (by
          rw [lookupA_setA_ne _ _ _ (by decide)]
          exact (hbase _).1)
      · exact hasKeyA_of_lookupA (by
          rw [lookupA_setA_ne _ _ _ (by decide)]
          exact (hbase _).2)
    · rw [show (cats.filterMap category_label != []) = false from by
        cases hcc : (cats.filterMap category_label != []) with
        | true => exact absurd hcc hne
        | false => rfl]
      simp only [Bool.false_eq_true, if_false]
      constructor
      · exact hasKeyA_of_lookupA (by
          rw [lookupA_removeA_ne _ _ (by decide)]
          exact (hbase _).1)
      · exact hasKeyA_of_lookupA (by
          rw [lookupA_removeA_ne _ _ (by decide)]
          exact (hbase _).2)

/-- After `nodeStep`, the processed endpoint is ready. -/
lemma nodeStep_ready_established {cmaps : CMap} {rg : List Triple} {fuel : Nat}
    {g g' : PGraph} {iri : String}
    (h : nodeStep cmaps rg fuel g iri = Option.some g') :
    nodeReady g' (curie cmaps iri) := by
  rw [nodeStep] at h
  by_cases hn : g.has_node (curie cmaps iri)
  · rw [if_pos hn] at h
    cases hl : lookupA g.nodes (curie cmaps iri) with
    | some attr =>
      rw [hl] at h
      cases h
      exact ⟨_, lookupA_setA_self _ _ _, (touch_haskeys attr iri _).1, (touch_haskeys attr iri _).2⟩
    | none => rw [hl] at h; cases h
  · rw [if_neg hn] at h
    cases hr : get_node_attr fuel rg iri with
    | some raw =>
      rw [hr] at h
      cases h
      have hnone : lookupA g.nodes (curie cmaps iri) = Option.none := by
        rw [PGraph.has_node, hasKeyA] at hn
        exact Option.not_isSome_iff_eq_none.1 (by simpa using hn)
      refine ⟨finalizeNodeAttr raw iri (curie cmaps iri), ?_,
        (finalize_haskeys raw iri (curie cmaps iri)).1,
        (finalize_haskeys raw iri (curie cmaps iri)).2⟩
      show lookupA (g.nodes ++ [(curie cmaps iri, finalizeNodeAttr raw iri (curie cmaps iri))])
        (curie cmaps iri) = _
      rw [lookupA_append, hnone]
      simp [lookupA]
    | none => rw [hr] at h; cases h

/-- `nodeStep` never un-readies a node. -/
lemma nodeStep_ready_preserved {cmaps : CMap} {rg : List Triple} {fuel : Nat}
    {g g' : PGraph} {iri id : String} (hready : nodeReady g id)
    (h : nodeStep cmaps rg fuel g iri = Option.some g') : nodeReady g' id := by
  rcases hready with ⟨a, ha, hai, had⟩
  rw [nodeStep] at h
  by_cases hn : g.has_node (curie cmaps iri)
  · rw [if_pos hn] at h
    cases hl : lookupA g.nodes (curie cmaps iri) with
    | some attr =>
      rw [hl] at h
      cases h
      by_cases hid : id = curie cmaps iri
      · subst hid
        exact ⟨_, lookupA_setA_self _ _ _, (touch_haskeys attr iri _).1,
          (touch_haskeys attr iri _).2⟩
      · exact ⟨a, by rw [PGraph.set_node] at *; rw [lookupA_setA_ne _ _ _ hid]; exact ha,
          hai, had⟩
    | none => rw [hl] at h; cases h
  · rw [if_neg hn] at h
    cases hr : get_node_attr fuel rg iri with
    | some raw =>
      rw [hr] at h
      cases h
      refine ⟨a, ?_, hai, had⟩
      show lookupA (g.nodes ++ [(curie cmaps iri, finalizeNodeAttr raw iri (curie cmaps iri))]) id =
        Option.some a
      rw [lookupA_append, ha]
      rfl
    | none => rw [hr] at h; cases h

/-- On a ready endpoint, `nodeStep` changes nothing. -/
lemma nodeStep_ready_nop {cmaps : CMap} {rg : List Triple} {fuel : Nat}
    {g : PGraph} {iri : String} (hready : nodeReady g (curie cmaps iri)) :
    nodeStep cmaps rg fuel g iri = Option.some g := by
  rcases hready with ⟨a, ha, hai, had⟩
  rw [nodeStep]
  have hn : g.has_node (curie cmaps iri) = true := by
    rw [PGraph.has_node, hasKeyA, ha]; rfl
  rw [if_pos hn, ha]
  show Option.some (g.set_node (curie cmaps iri) (touchExistingAttr a iri (curie cmaps iri))) =
    Option.some g
  rw [touch_nop a iri _ hai had]
  rw [PGraph.set_node, setA_nop ha]

/-- `nodeStep` preserves duplicate-freeness of node ids
(lookup-before-create). -/
lemma nodeStep_nodup {cmaps : CMap} {rg : List Triple} {fuel : Nat}
    {g g' : PGraph} {iri : String} (hnd : (g.nodes.map Prod.fst).Nodup)
    (h : nodeStep cmaps rg fuel g iri = Option.some g') :
    (g'.nodes.map Prod.fst).Nodup := by
  rw [nodeStep] at h
  by_cases hn : g.has_node (curie cmaps iri)
  · rw [if_pos hn] at h
    cases hl : lookupA g.nodes (curie cmaps iri) with
    | some attr =>
      rw [hl] at h
      cases h
      rw [PGraph.set_node]
      show ((setA g.nodes _ _).map Prod.fst).Nodup
      rw [keys_setA_of_mem _ (lookupA_some_mem hl)]
      exact hnd
    | none => rw [hl] at h; cases h
  · rw [if_neg hn] at h
    cases hr : get_node_attr fuel rg iri with
    | some raw =>
      rw [hr] at h
      cases h
      have hnone : lookupA g.nodes (curie cmaps iri) = Option.none := by
        rw [PGraph.has_node, hasKeyA] at hn
        exact Option.not_isSome_iff_eq_none.1 (by simpa using hn)
      show ((g.nodes ++ [(curie cmaps iri, finalizeNodeAttr raw iri (curie cmaps iri))]).map Prod.fst).Nodup
      rw [List.map_append]
      refine List.Nodup.append hnd (by simp) ?_
      intro x hx hxs
      rcases List.mem_singleton.1 (by simpa using hxs) with rfl
      exact absurd hx (lookupA_eq_none_iff.1 hnone)
    | none => rw [hr] at h; cases h



/-- The node loop never un-readies a node. -/
lemma nodePhase_ready_preserved {cmaps : CMap} {rg : List Triple} {fuel : Nat} :
    ∀ {iris : List String} {g h : PGraph} {id : String}, nodeReady g id →
      nodePhase cmaps rg fuel g iris = Option.some h → nodeReady h id := by
  intro iris
  induction iris with
  | nil =>
    intro g h id hready hh
    have h2 : Option.some g = Option.some h := hh
    cases h2; exact hready
  | cons i is ih =>
    intro g h id hready hh
    rw [nodePhase, List.foldlM_cons] at hh
    cases hs : nodeStep cmaps rg fuel g i with
    | some g1 =>
      rw [hs] at hh
      simp only [Option.bind_eq_bind, Option.some_bind] at hh
      exact ih (nodeStep_ready_preserved hready hs) hh
    | none => rw [hs] at hh; cases hh

/-- After the node loop, every processed endpoint is ready. -/
lemma nodePhase_ready_established {cmaps : CMap} {rg : List Triple} {fuel : Nat} :
    ∀ {iris : List String} {g h : PGraph},
      nodePhase cmaps rg fuel g iris = Option.some h →
      ∀ iri ∈ iris, nodeReady h (curie cmaps iri) := by
  intro iris
  induction iris with
  | nil => intro g h _ iri hmem; cases hmem
  | cons i is ih =>
    intro g h hh iri hmem
    rw [nodePhase, List.foldlM_cons] at hh
    cases hs : nodeStep cmaps rg fuel g i with
    | some g1 =>
      rw [hs] at hh
      simp only [Option.bind_eq_bind, Option.some_bind] at hh
      rcases List.mem_cons.1 hmem with rfl | hmem2
      · exact nodePhase_ready_preserved (nodeStep_ready_established hs) hh
      · exact ih hh iri hmem2
    | none => rw [hs] at hh; cases hh

/-- The node loop preserves duplicate-freeness of node ids. -/
lemma nodePhase_nodup {cmaps : CMap} {rg : List Triple} {fuel : Nat} :
    ∀ {iris : List String} {g h : PGraph}, (g.nodes.map Prod.fst).Nodup →
      nodePhase cmaps rg fuel g iris = Option.some h →
      (h.nodes.map Prod.fst).Nodup := by
  intro iris
  induction iris with
  | nil =>
    intro g h hnd hh
    have h2 : Option.some g = Option.some h := hh
    cases h2; exact hnd
  | cons i is ih =>
    intro g h hnd hh
    rw [nodePhase, List.foldlM_cons] at hh
    cases hs : nodeStep cmaps rg fuel g i with
    | some g1 =>
      rw [hs] at hh
      simp only [Option.bind_eq_bind, Option.some_bind] at hh
      exact ih (nodeStep_nodup hnd hs) hh
    | none => rw [hs] at hh; cases hh

/-- On all-ready endpoints, the node loop changes nothing. -/
lemma nodePhase_ready_nop {cmaps : CMap} {rg : List Triple} {fuel : Nat} :
    ∀ {iris : List String} {g : PGraph},
      (∀ iri ∈ iris, nodeReady g (curie cmaps iri)) →
      nodePhase cmaps rg fuel g iris = Option.some g := by
  intro iris
  induction iris with
  | nil => intro g _; rfl
  | cons i is ih =>
    intro g hready
    rw [nodePhase, List.foldlM_cons]
    rw [nodeStep_ready_nop (hready i (List.mem_cons_self i is))]
    simp only [Option.bind_eq_bind, Option.some_bind]
    exact ih (fun iri hmem => hready iri (List.mem_cons_of_mem i hmem))

/-- One association appends exactly its batch of edges. -/
lemma pa_batch {cmaps : CMap} {rg : List Triple} {pb : Option String} {fuel : Nat}
    {g g2 : PGraph} {a : String}
    (hp : processAssociation cmaps rg pb fuel g a = Option.some g2) :
    g2.edges = g.edges ++ assocBatch cmaps rg pb a := by
  rw [processAssociation] at hp
  cases hea : buildEdgeAttr cmaps rg pb a with
  | some ea =>
    rw [hea] at hp
    simp only [Option.some_bind, Option.map_eq_some'] at hp
    rcases hp with ⟨h, hph, hg2⟩
    rw [← hg2]
    show h.edges ++ _ = g.edges ++ assocBatch cmaps rg pb a
    rw [nodePhase_edges hph, assocBatch, hea]
  | none => rw [hea] at hp; cases hp

/-- A successful association implies a successful `edge_attr` build. -/
lemma pa_builder {cmaps : CMap} {rg : List Triple} {pb : Option String} {fuel : Nat}
    {g g2 : PGraph} {a : String}
    (hp : processAssociation cmaps rg pb fuel g a = Option.some g2) :
    ∃ ea, buildEdgeAttr cmaps rg pb a = Option.some ea := by
  rw [processAssociation] at hp
  cases hea : buildEdgeAttr cmaps rg pb a with
  | some ea => exact ⟨ea, rfl⟩
  | none => rw [hea] at hp; cases hp

/-- Association processing never un-readies a node. -/
lemma pa_ready_preserved {cmaps : CMap} {rg : List Triple} {pb : Option String}
    {fuel : Nat} {g g2 : PGraph} {a : String} {id : String} (hready : nodeReady g id)
    (hp : processAssociation cmaps rg pb fuel g a = Option.some g2) :
    nodeReady g2 id := by
  rw [processAssociation] at hp
  cases hea : buildEdgeAttr cmaps rg pb a with
  | some ea =>
    rw [hea] at hp
    simp only [Option.some_bind, Option.map_eq_some'] at hp
    rcases hp with ⟨h, hph, hg2⟩
    have := nodePhase_ready_preserved hready hph
    rw [← hg2]
    exact this
  | none => rw [hea] at hp; cases hp

/-- After one association, all its endpoints are ready. -/
lemma pa_ready_established {cmaps : CMap} {rg : List Triple} {pb : Option String}
    {fuel : Nat} {g g2 : PGraph} {a : String}
    (hp : processAssociation cmaps rg pb fuel g a = Option.some g2) :
    ∀ iri ∈ endpointsOf cmaps rg pb a, nodeReady g2 (curie cmaps iri) := by
  rw [processAssociation] at hp
  cases hea : buildEdgeAttr cmaps rg pb a with
  | some ea =>
    rw [hea] at hp
    simp only [Option.some_bind, Option.map_eq_some'] at hp
    rcases hp with ⟨h, hph, hg2⟩
    intro iri hmem
    rw [endpointsOf, hea] at hmem
    have hmem2 : iri ∈ (attrList ea "subject" ++ attrList ea "object").dedup :=
      List.mem_dedup.2 hmem
    have := nodePhase_ready_established hph iri hmem2
    rw [← hg2]
    exact this
  | none => rw [hea] at hp; cases hp

/-- Association processing preserves duplicate-freeness. -/
lemma pa_nodup {cmaps : CMap} {rg : List Triple} {pb : Option String} {fuel : Nat}
    {g g2 : PGraph} {a : String} (hnd : (g.nodes.map Prod.fst).Nodup)
    (hp : processAssociation cmaps rg pb fuel g a = Option.some g2) :
    (g2.nodes.map Prod.fst).Nodup := by
  rw [processAssociation] at hp
  cases hea : buildEdgeAttr cmaps rg pb a with
  | some ea =>
    rw [hea] at hp
    simp only [Option.some_bind, Option.map_eq_some'] at hp
    rcases hp with ⟨h, hph, hg2⟩
    have := nodePhase_nodup hnd hph
    rw [← hg2]
    exact this
  | none => rw [hea] at hp; cases hp

/-- On all-ready endpoints an association only appends its edges. -/
lemma pa_nop {cmaps : CMap} {rg : List Triple} {pb : Option String} {fuel : Nat}
    {g : PGraph} {a : String} {ea : AttrDict}
    (hea : buildEdgeAttr cmaps rg pb a = Option.some ea)
    (hready : ∀ iri ∈ endpointsOf cmaps rg pb a, nodeReady g (curie cmaps iri)) :
    processAssociation cmaps rg pb fuel g a =
      Option.some { g with edges := g.edges ++ assocBatch cmaps rg pb a } := by
  rw [processAssociation, hea]
  simp only [Option.some_bind]
  have hphase : nodePhase cmaps rg fuel g (attrList ea "subject" ++ attrList ea "object").dedup =
      Option.some g := by
    apply nodePhase_ready_nop
    intro iri hmem
    apply hready
    rw [endpointsOf, hea]
    exact List.mem_dedup.1 hmem
  rw [hphase]
  rw [Option.map_some']
  rw [assocBatch, hea]



/-- A loader pass appends the full edge batch. -/
lemma run_edges {cmaps : CMap} {rg : List Triple} {pb : Option String} {fuel : Nat} :
    ∀ {as : List String} {g g1 : PGraph},
      as.foldlM (fun h a => processAssociation cmaps rg pb fuel h a) g = Option.some g1 →
      g1.edges = g.edges ++ as.flatMap (assocBatch cmaps rg pb) := by
  intro as
  induction as with
  | nil =>
    intro g g1 h
    have h2 : Option.some g = Option.some g1 := h
    cases h2; simp
  | cons a as ih =>
    intro g g1 h
    rw [List.foldlM_cons] at h
    cases hp : processAssociation cmaps rg pb fuel g a with
    | some gm =>
      rw [hp] at h
      simp only [Option.bind_eq_bind, Option.some_bind] at h
      rw [ih h, pa_batch hp]
      simp [List.append_assoc]
    | none => rw [hp] at h; cases h

/-- A loader pass never un-readies a node. -/
lemma run_ready_preserved {cmaps : CMap} {rg : List Triple} {pb : Option String}
    {fuel : Nat} :
    ∀ {as : List String} {g g1 : PGraph} {id : String}, nodeReady g id →
      as.foldlM (fun h a => processAssociation cmaps rg pb fuel h a) g = Option.some g1 →
      nodeReady g1 id := by
  intro as
  induction as with
  | nil =>
    intro g g1 id hready h
    have h2 : Option.some g = Option.some g1 := h
    cases h2; exact hready
  | cons a as ih =>
    intro g g1 id hready h
    rw [List.foldlM_cons] at h
    cases hp : processAssociation cmaps rg pb fuel g a with
    | some gm =>
      rw [hp] at h
      simp only [Option.bind_eq_bind, Option.some_bind] at h
      exact ih (pa_ready_preserved hready hp) h
    | none => rw [hp] at h; cases h

/-- A loader pass preserves duplicate-freeness of node ids. -/
lemma run_nodup {cmaps : CMap} {rg : List Triple} {pb : Option String} {fuel : Nat} :
    ∀ {as : List String} {g g1 : PGraph}, (g.nodes.map Prod.fst).Nodup →
      as.foldlM (fun h a => processAssociation cmaps rg pb fuel h a) g = Option.some g1 →
      (g1.nodes.map Prod.fst).Nodup := by
  intro as
  induction as with
  | nil =>
    intro g g1 hnd h
    have h2 : Option.some g = Option.some g1 := h
    cases h2; exact hnd
  | cons a as ih =>
    intro g g1 hnd h
    rw [List.foldlM_cons] at h
    cases hp : processAssociation cmaps rg pb fuel g a with
    | some gm =>
      rw [hp] at h
      simp only [Option.bind_eq_bind, Option.some_bind] at h
      exact ih (pa_nodup hnd hp) h
    | none => rw [hp] at h; cases h

/-- A successful pass implies every association builds its dict. -/
lemma run_builder {cmaps : CMap} {rg : List Triple} {pb : Option String} {fuel : Nat} :
    ∀ {as : List String} {g g1 : PGraph},
      as.foldlM (fun h a => processAssociation cmaps rg pb fuel h a) g = Option.some g1 →
      ∀ a ∈ as, ∃ ea, buildEdgeAttr cmaps rg pb a = Option.some ea := by
  intro as
  induction as with
  | nil => intro g g1 _ a ha; cases ha
  | cons a as ih =>
    intro g g1 h a2 ha2
    rw [List.foldlM_cons] at h
    cases hp : processAssociation cmaps rg pb fuel g a with
    | some gm =>
      rw [hp] at h
      simp only [Option.bind_eq_bind, Option.some_bind] at h
      rcases List.mem_cons.1 ha2 with rfl | hmem
      · exact pa_builder hp
      · exact ih h a2 hmem
    | none => rw [hp] at h; cases h

/-- After a pass, every endpoint of every association is ready. -/
lemma run_ready_established {cmaps : CMap} {rg : List Triple} {pb : Option String}
    {fuel : Nat} :
    ∀ {as : List String} {g g1 : PGraph},
      as.foldlM (fun h a => processAssociation cmaps rg pb fuel h a) g = Option.some g1 →
      ∀ a ∈ as, ∀ iri ∈ endpointsOf cmaps rg pb a, nodeReady g1 (curie cmaps iri) := by
  intro as
  induction as with
  | nil => intro g g1 _ a ha; cases ha
  | cons a as ih =>
    intro g g1 h a2 ha2 iri hiri
    rw [List.foldlM_cons] at h
    cases hp : processAssociation cmaps rg pb fuel g a with
    | some gm =>
      rw [hp] at h
      simp only [Option.bind_eq_bind, Option.some_bind] at h
      rcases List.mem_cons.1 ha2 with rfl | hmem
      · exact run_ready_preserved (pa_ready_established hp iri hiri) h
      · exact ih h a2 hmem iri hiri
    | none => rw [hp] at h; cases h

/-- A pass over an all-ready graph only appends the edge batch. -/
lemma run_nop {cmaps : CMap} {rg : List Triple} {pb : Option String} {fuel : Nat} :
    ∀ {as : List String} {g : PGraph},
      (∀ a ∈ as, (∃ ea, buildEdgeAttr cmaps rg pb a = Option.some ea) ∧
        ∀ iri ∈ endpointsOf cmaps rg pb a, nodeReady g (curie cmaps iri)) →
      as.foldlM (fun h a => processAssociation cmaps rg pb fuel h a) g =
        Option.some { g with edges := g.edges ++ as.flatMap (assocBatch cmaps rg pb) } := by
  intro as
  induction as with
  | nil =>
    intro g _
    show Option.some g = _
    simp
  | cons a as ih =>
    intro g hfacts
    rw [List.foldlM_cons]
    rcases (hfacts a (List.mem_cons_self a as)).1 with ⟨ea, hea⟩
    rw [pa_nop hea ((hfacts a (List.mem_cons_self a as)).2)]
    simp only [Option.bind_eq_bind, Option.some_bind]
    rw [@ih { g with edges := g.edges ++ assocBatch cmaps rg pb a }
      (fun a2 ha2 => ⟨(hfacts a2 (List.mem_cons_of_mem a ha2)).1,
        fun iri hiri => (hfacts a2 (List.mem_cons_of_mem a ha2)).2 iri hiri⟩)]
    simp [List.append_assoc]

/-- C6: reprocessing the same triples.  A first successful `load_edges`
pass leaves every endpoint node id present (with `iri`/`id` attributes),
so a second pass over the same triples changes no node at all and simply
appends the identical edge batch again: nodes stay duplicate-free
(lookup-before-create), edges are duplicated. -/
theorem C6_reprocess_nodes_stable_edges_duplicated (cmaps : CMap) (rg : List Triple)
    (pb : Option String) (fuel : Nat) (g0 g1 : PGraph)
    (hnd : (g0.nodes.map Prod.fst).Nodup)
    (h1 : load_edges cmaps rg pb fuel g0 = Option.some g1) :
    load_edges cmaps rg pb fuel g1 =
      Option.some { nodes := g1.nodes, edges := g1.edges ++ edgeBatch cmaps rg pb } ∧
    g1.edges = g0.edges ++ edgeBatch cmaps rg pb ∧
    (g1.nodes.map Prod.fst).Nodup := by
  rw [load_edges] at h1
  refine ⟨?_, run_edges h1, run_nodup hnd h1⟩
  rw [load_edges]
  rw [run_nop (fun a ha => ⟨run_builder h1 a ha,
    fun iri hiri => run_ready_established h1 a ha iri hiri⟩)]
  rfl




/-- Witness for C6 at the fixture association. -/
theorem C6_reprocess_witness :
    (((⟨[], []⟩ : PGraph).nodes.map Prod.fst).Nodup) ∧
    load_edges cmapsEx rgAssoc (Option.some "tag") 10 ⟨[], []⟩ = Option.some gLoaded ∧
    (load_edges cmapsEx rgAssoc (Option.some "tag") 10 gLoaded =
      Option.some { nodes := gLoaded.nodes,
                    edges := gLoaded.edges ++ edgeBatch cmapsEx rgAssoc (Option.some "tag") } ∧
     gLoaded.edges = PGraph.edges ⟨[], []⟩ ++ edgeBatch cmapsEx rgAssoc (Option.some "tag") ∧
     (gLoaded.nodes.map Prod.fst).Nodup) :=
  ⟨by simp, rfl,
   C6_reprocess_nodes_stable_edges_duplicated cmapsEx rgAssoc (Option.some "tag") 10
     ⟨[], []⟩ gLoaded (by simp) rfl⟩

end Kgx
